import Mathlib

/-!
# Verification of the sparse time-series interpolator and frame composer

Shallow embedding, over exact rationals, of the data-driven core of the
d3 bubble-chart exercise: `d3.bisector(function(d) { return d[0]; }).left`
(the binary search used to locate a query year in an ascending sample list),
`interpolateValues` (linear interpolation of a sparse `[year, value]` series),
`interpolateData` (per-year frame composition over all nations), and the
draw-order comparator `order` built on the `radius` accessor.

JavaScript numbers are embedded as `ℚ`.  A JavaScript evaluation with no
numeric result — an out-of-bounds element access (`undefined`, which makes
the subsequent `a[1]` throw), or a division whose denominator is zero (which
produces `Infinity`/`NaN` and poisons the surrounding arithmetic) — is
embedded as `none` of an `Option ℚ`-valued function.
-/

/-- A sample of a series: a `[year, value]` pair from the dataset.  The first
component is the year (the value returned by the bisector's accessor
`function(d) { return d[0]; }`), the second is the measured value. -/
abbrev Sample : Type := ℚ × ℚ

/-- Embeds `d3.bisector(function(d) { return d[0]; }).left(values, x, lo, hi)`:
binary search for the leftmost insertion index of `x` among the years of
`values`, restricted to indices in `[lo, hi]`.  Follows d3-array's bisector
loop: while `lo < hi`, probe `mid = (lo + hi) >>> 1` and move `lo` past `mid`
when the probed year is `< x`, otherwise shrink `hi` to `mid`; the result is
the final `lo`.  A probe outside the array is `none`; `bisectLeft_bounds`
shows the probes of an in-range call are always in bounds. -/
def bisectLeft (values : List Sample) (x : ℚ) (lo hi : ℕ) : Option ℕ :=
  if lo < hi then
    match values.get? ((lo + hi) / 2) with
    | none => none
    | some d => if d.1 < x then bisectLeft values x ((lo + hi) / 2 + 1) hi
                else bisectLeft values x lo ((lo + hi) / 2)
  else some lo
termination_by hi - lo
decreasing_by all_goals omega

/-- Embeds `interpolateValues(values, year)` from the exercise:

```js
function interpolateValues(values, year) {
  var i = bisect.left(values, year, 0, values.length - 1),
      a = values[i];
  if (i > 0) {
    var b = values[i - 1],
        t = (year - a[0]) / (b[0] - a[0]);
    return a[1] * (1 - t) + b[1] * t;
  }
  return a[1];
}
```

An element access out of bounds (only possible when `values` is empty, where
the JS code throws on `a[1]`) and a division with zero denominator (where JS
yields `NaN`) are embedded as `none`. -/
def interpolateValues (values : List Sample) (year : ℚ) : Option ℚ :=
  match bisectLeft values year 0 (values.length - 1) with
  | none => none
  | some i =>
    match values.get? i with
    | none => none
    | some a =>
      if 0 < i then
        match values.get? (i - 1) with
        | none => none
        | some b =>
          if b.1 - a.1 = 0 then none
          else
            some (a.2 * (1 - (year - a.1) / (b.1 - a.1)) +
                  b.2 * ((year - a.1) / (b.1 - a.1)))
      else some a.2

/-- A record of the input dataset: one nation, with a name, a region and
three sparse `[year, value]` series. -/
structure Entity where
  name : String
  region : String
  income : List Sample
  population : List Sample
  lifeExpectancy : List Sample

/-- A snapshot produced by `interpolateData` for one nation at one query
year: the three series fields are replaced by their interpolated scalar
values (`none` when the interpolation has no numeric result). -/
structure Snapshot where
  name : String
  region : String
  income : Option ℚ
  population : Option ℚ
  lifeExpectancy : Option ℚ

/-- Embeds `interpolateData(year)`: maps every nation to a snapshot whose
numeric fields are `interpolateValues` of the corresponding series at
`year`, keeping `name` and `region`.  The closed-over `nations` array is an
explicit argument. -/
def interpolateData (nations : List Entity) (year : ℚ) : List Snapshot :=
  nations.map fun d =>
    { name := d.name
      region := d.region
      income := interpolateValues d.income year
      population := interpolateValues d.population year
      lifeExpectancy := interpolateValues d.lifeExpectancy year }

/-- Embeds the accessor `function radius(d) { return d.population; }`. -/
def radius (d : Snapshot) : Option ℚ := d.population

/-- Embeds the comparator `function order(a, b) { return radius(b) - radius(a); }`
as the numeric difference, defined when both radii are numeric. -/
def order (a b : Snapshot) : Option ℚ :=
  match radius b, radius a with
  | some rb, some ra => some (rb - ra)
  | _, _ => none

/-- The sort key induced by `order`: `Array.prototype.sort` places `a` no
later than `b` exactly when the comparator value `radius(b) - radius(a)` is
nonpositive, i.e. `radius b ≤ radius a`.  Undefined radii are read as `0`
to make the key total; the theorems about it only inspect defined radii
(see `orderLe_eq_order`). -/
def orderLe (a b : Snapshot) : Bool :=
  decide ((radius b).getD 0 ≤ (radius a).getD 0)

/-- Embeds `.sort(order)` on a composed frame: sort the snapshots by the
draw-order comparator. -/
def sortSnapshots (l : List Snapshot) : List Snapshot := l.mergeSort orderLe

theorem orderLe_eq_order (a b : Snapshot) (r : ℚ) (h : order a b = some r) :
    (orderLe a b = true) ↔ r ≤ 0 := by
  rcases hb : radius b with _ | rb <;> rcases ha : radius a with _ | ra <;>
    simp [order, hb, ha] at h
  subst h
  simp [orderLe, hb, ha, sub_nonpos]

theorem bisectLeft_of_lt (values : List Sample) (x : ℚ) (lo hi : ℕ) (h : lo < hi) :
    bisectLeft values x lo hi =
      match values.get? ((lo + hi) / 2) with
      | none => none
      | some d => if d.1 < x then bisectLeft values x ((lo + hi) / 2 + 1) hi
                  else bisectLeft values x lo ((lo + hi) / 2) := by
  rw [bisectLeft]
  simp [h]

theorem bisectLeft_of_ge (values : List Sample) (x : ℚ) (lo hi : ℕ) (h : ¬ lo < hi) :
    bisectLeft values x lo hi = some lo := by
  rw [bisectLeft]
  simp [h]

/-- Two positions of a list related by a pairwise relation. -/
theorem pairwise_get_rel (values : List Sample) {r : Sample → Sample → Prop}
    (h : values.Pairwise r) {j m : ℕ} {d e : Sample} (hjm : j < m)
    (hd : values.get? j = some d) (he : values.get? m = some e) : r d e := by
  rcases List.get?_eq_some.1 hd with ⟨hj, rfl⟩
  rcases List.get?_eq_some.1 he with ⟨hm, rfl⟩
  exact List.pairwise_iff_get.1 h ⟨j, hj⟩ ⟨m, hm⟩ hjm

/-- In a series with ascending years, years are monotone in the index. -/
theorem sorted_fst_le (values : List Sample)
    (hsorted : values.Pairwise (fun p q => p.1 ≤ q.1))
    {j m : ℕ} {d e : Sample} (hjm : j ≤ m)
    (hd : values.get? j = some d) (he : values.get? m = some e) : d.1 ≤ e.1 := by
  rcases eq_or_lt_of_le hjm with h | h
  · subst h
    rw [hd] at he
    rw [Option.some_inj.1 he]
  · exact pairwise_get_rel values hsorted h hd he

/-- In a series with strictly ascending years, years are strictly monotone
in the index. -/
theorem sorted_fst_lt (values : List Sample)
    (hstrict : values.Pairwise (fun p q => p.1 < q.1))
    {j m : ℕ} {d e : Sample} (hjm : j < m)
    (hd : values.get? j = some d) (he : values.get? m = some e) : d.1 < e.1 :=
  pairwise_get_rel values hstrict hjm hd he

/-- `bisectLeft` on a segment of a year-sorted series terminates with the
leftmost insertion index: every sample strictly left of the result has year
`< x`, and every sample from the result up to (excluding) `hi` has year
`≥ x`. -/
theorem bisectLeft_char (values : List Sample) (x : ℚ)
    (hsorted : values.Pairwise (fun p q => p.1 ≤ q.1)) :
    ∀ n lo hi, hi - lo ≤ n → hi ≤ values.length → lo ≤ hi →
      ∃ i, bisectLeft values x lo hi = some i ∧ lo ≤ i ∧ i ≤ hi ∧
        (∀ j d, lo ≤ j → j < i → values.get? j = some d → d.1 < x) ∧
        (∀ j d, i ≤ j → j < hi → values.get? j = some d → x ≤ d.1) := by
  intro n
  induction n with
  | zero =>
    intro lo hi hn hhi hlohi
    refine ⟨lo, bisectLeft_of_ge values x lo hi (by omega), le_refl lo, by omega, ?_, ?_⟩
    · intro j d h1 h2 _
      omega
    · intro j d h1 h2 _
      omega
  | succ n ih =>
    intro lo hi hn hhi hlohi
    by_cases hlt : lo < hi
    · have hmid1 : lo ≤ (lo + hi) / 2 := by omega
      have hmid2 : (lo + hi) / 2 < hi := by omega
      have hmidlen : (lo + hi) / 2 < values.length := by omega
      obtain ⟨d, hd⟩ : ∃ d, values.get? ((lo + hi) / 2) = some d :=
        ⟨_, List.get?_eq_get hmidlen⟩
      by_cases hcmp : d.1 < x
      · obtain ⟨i, hbis, h1, h2, h3, h4⟩ :=
          ih ((lo + hi) / 2 + 1) hi (by omega) hhi (by omega)
        refine ⟨i, ?_, by omega, h2, ?_, h4⟩
        · rw [bisectLeft_of_lt values x lo hi hlt, hd]
          simp [hcmp, hbis]
        · intro j e hj1 hj2 he
          by_cases hjm : j ≤ (lo + hi) / 2
          · exact lt_of_le_of_lt (sorted_fst_le values hsorted hjm he hd) hcmp
          · exact h3 j e (by omega) hj2 he
      · obtain ⟨i, hbis, h1, h2, h3, h4⟩ :=
          ih lo ((lo + hi) / 2) (by omega) (by omega) (by omega)
        refine ⟨i, ?_, h1, by omega, h3, ?_⟩
        · rw [bisectLeft_of_lt values x lo hi hlt, hd]
          simp [hcmp, hbis]
        · intro j e hj1 hj2 he
          by_cases hjm : j < (lo + hi) / 2
          · exact h4 j e hj1 hjm he
          · have := sorted_fst_le values hsorted (show (lo + hi) / 2 ≤ j by omega) hd he
            exact le_trans (not_lt.1 hcmp) this
    · refine ⟨lo, bisectLeft_of_ge values x lo hi hlt, le_refl lo, by omega, ?_, ?_⟩
      · intro j d h1 h2 _
        omega
      · intro j d h1 h2 _
        omega

/-- The call made by `interpolateValues` — `bisect.left(values, x, 0,
values.length - 1)` on a non-empty year-sorted series — returns an in-bounds
index that is the leftmost insertion point. -/
theorem bisectLeft_run (values : List Sample) (x : ℚ)
    (hne : values ≠ [])
    (hsorted : values.Pairwise (fun p q => p.1 ≤ q.1)) :
    ∃ i, bisectLeft values x 0 (values.length - 1) = some i ∧ i < values.length ∧
      (∀ j d, j < i → values.get? j = some d → d.1 < x) ∧
      (∀ j d, i ≤ j → j < values.length - 1 → values.get? j = some d → x ≤ d.1) := by
  have hlen : 0 < values.length := List.length_pos.2 hne
  obtain ⟨i, hbis, _, h2, h3, h4⟩ :=
    bisectLeft_char values x hsorted values.length 0 (values.length - 1)
      (by omega) (by omega) (by omega)
  exact ⟨i, hbis, by omega, fun j d hj hd => h3 j d (by omega) hj hd, h4⟩

/-- `bisectLeft` on a segment of any series (no sortedness assumed)
terminates with an index inside the segment; in particular no probe is out
of bounds. -/
theorem bisectLeft_bounds (values : List Sample) (x : ℚ) :
    ∀ n lo hi, hi - lo ≤ n → hi ≤ values.length → lo ≤ hi →
      ∃ i, bisectLeft values x lo hi = some i ∧ lo ≤ i ∧ i ≤ hi := by
  intro n
  induction n with
  | zero =>
    intro lo hi hn hhi hlohi
    exact ⟨lo, bisectLeft_of_ge values x lo hi (by omega), le_refl lo, by omega⟩
  | succ n ih =>
    intro lo hi hn hhi hlohi
    by_cases hlt : lo < hi
    · have hmidlen : (lo + hi) / 2 < values.length := by omega
      obtain ⟨d, hd⟩ : ∃ d, values.get? ((lo + hi) / 2) = some d :=
        ⟨_, List.get?_eq_get hmidlen⟩
      by_cases hcmp : d.1 < x
      · obtain ⟨i, hbis, h1, h2⟩ := ih ((lo + hi) / 2 + 1) hi (by omega) hhi (by omega)
        refine ⟨i, ?_, by omega, h2⟩
        rw [bisectLeft_of_lt values x lo hi hlt, hd]
        simp [hcmp, hbis]
      · obtain ⟨i, hbis, h1, h2⟩ := ih lo ((lo + hi) / 2) (by omega) (by omega) (by omega)
        refine ⟨i, ?_, h1, by omega⟩
        rw [bisectLeft_of_lt values x lo hi hlt, hd]
        simp [hcmp, hbis]
    · exact ⟨lo, bisectLeft_of_ge values x lo hi hlt, le_refl lo, by omega⟩

/-- Querying a strictly year-sorted series at the exact year of its `k`-th
sample returns that sample's value. -/
theorem interp_exact (values : List Sample) (k : ℕ) (dk : Sample)
    (hstrict : values.Pairwise (fun p q => p.1 < q.1))
    (hk : values.get? k = some dk) :
    interpolateValues values dk.1 = some dk.2 := by
  have hsorted : values.Pairwise (fun p q => p.1 ≤ q.1) :=
    hstrict.imp (fun h => le_of_lt h)
  have hklen : k < values.length := by
    rcases List.get?_eq_some.1 hk with ⟨h, _⟩
    exact h
  have hne : values ≠ [] := by
    intro h
    rw [h] at hklen
    simp at hklen
  obtain ⟨i, hbis, hilen, hlt, hge⟩ := bisectLeft_run values dk.1 hne hsorted
  obtain ⟨a, ha⟩ : ∃ a, values.get? i = some a := ⟨_, List.get?_eq_get hilen⟩
  have hik : i ≤ k := by
    by_contra hgt
    exact absurd (hlt k dk (by omega) hk) (lt_irrefl _)
  have hki : k ≤ i := by
    by_contra hlt2
    push_neg at hlt2
    have h1 : dk.1 ≤ a.1 := hge i a (le_refl i) (by omega) ha
    have h2 : a.1 < dk.1 := sorted_fst_lt values hstrict hlt2 ha hk
    linarith
  have hik' : i = k := le_antisymm hik hki
  subst hik'
  have hadk : a = dk := by
    rw [ha] at hk
    exact Option.some_inj.1 hk
  subst hadk
  rcases Nat.eq_zero_or_pos i with h0 | hpos
  · subst h0
    simp only [interpolateValues, hbis, ha]
    simp
  · have hi1len : i - 1 < values.length := by omega
    obtain ⟨b, hb⟩ : ∃ b, values.get? (i - 1) = some b := ⟨_, List.get?_eq_get hi1len⟩
    have hba : b.1 < a.1 := sorted_fst_lt values hstrict (by omega) hb ha
    simp only [interpolateValues, hbis, ha, hb]
    rw [if_pos hpos, if_neg (by intro h; linarith [sub_eq_zero.1 h])]
    norm_num

/-- On the `i > 0` branch with defined samples `a = values[i]`,
`b = values[i - 1]` and distinct bracketing years, `interpolateValues`
returns the linear-interpolation value, written with the earlier sample `b`
as the reference point of the fraction. -/
theorem interp_formula (values : List Sample) (year : ℚ) (i : ℕ) (a b : Sample)
    (hbis : bisectLeft values year 0 (values.length - 1) = some i)
    (hi : 0 < i)
    (ha : values.get? i = some a) (hb : values.get? (i - 1) = some b)
    (hne : b.1 ≠ a.1) :
    interpolateValues values year =
      some (b.2 * (1 - (year - b.1) / (a.1 - b.1)) + a.2 * ((year - b.1) / (a.1 - b.1))) := by
  simp only [interpolateValues, hbis, ha, hb]
  rw [if_pos hi, if_neg (by intro h; exact hne (sub_eq_zero.1 h))]
  have hd : a.1 - b.1 ≠ 0 := sub_ne_zero.2 (fun h => hne h.symm)
  have hd' : b.1 - a.1 ≠ 0 := sub_ne_zero.2 hne
  congr 1
  field_simp
  ring

/-- Querying a strictly year-sorted series inside the segment between
consecutive samples `k` and `k + 1` returns the value of the line through
those two samples. -/
theorem interp_segment (values : List Sample) (k : ℕ) (dk dk1 : Sample) (y : ℚ)
    (hstrict : values.Pairwise (fun p q => p.1 < q.1))
    (hdk : values.get? k = some dk) (hdk1 : values.get? (k + 1) = some dk1)
    (h1 : dk.1 ≤ y) (h2 : y ≤ dk1.1) :
    interpolateValues values y =
      some (dk.2 + (y - dk.1) * (dk1.2 - dk.2) / (dk1.1 - dk.1)) := by
  have hk1len : k + 1 < values.length := by
    rcases List.get?_eq_some.1 hdk1 with ⟨h, _⟩
    exact h
  have hkk1 : dk.1 < dk1.1 := sorted_fst_lt values hstrict (by omega) hdk hdk1
  have hd : dk1.1 - dk.1 ≠ 0 := sub_ne_zero.2 (ne_of_gt hkk1)
  rcases eq_or_lt_of_le h1 with heq | hlt
  · rw [← heq, interp_exact values k dk hstrict hdk]
    congr 1
    rw [sub_self]
    ring
  · have hsorted : values.Pairwise (fun p q => p.1 ≤ q.1) :=
      hstrict.imp (fun h => le_of_lt h)
    have hne : values ≠ [] := by
      intro h
      rw [h] at hk1len
      simp at hk1len
    obtain ⟨i, hbis, hilen, hltp, hgep⟩ := bisectLeft_run values y hne hsorted
    have hik : i ≤ k + 1 := by
      by_contra hgt
      push_neg at hgt
      have := hltp (k + 1) dk1 (by omega) hdk1
      linarith
    have hki : k + 1 ≤ i := by
      by_contra hlt2
      push_neg at hlt2
      have := hgep k dk (by omega) (by omega) hdk
      linarith
    have hieq : i = k + 1 := le_antisymm hik hki
    subst hieq
    have hform := interp_formula values y (k + 1) dk1 dk hbis (by omega) hdk1
      (by simpa using hdk) (ne_of_lt hkk1)
    rw [hform]
    congr 1
    field_simp
    ring

/-- Querying a strictly year-sorted series past its last year selects
`i = values.length - 1` (the bisection's upper bound) and hence returns the
linear extrapolation through the last two samples. -/
theorem interp_extrapolate_right (values : List Sample) (y : ℚ) (dprev dlast : Sample)
    (hstrict : values.Pairwise (fun p q => p.1 < q.1))
    (h2 : 2 ≤ values.length)
    (hprev : values.get? (values.length - 2) = some dprev)
    (hlast : values.get? (values.length - 1) = some dlast)
    (hy : dlast.1 < y) :
    interpolateValues values y =
      some (dprev.2 * (1 - (y - dprev.1) / (dlast.1 - dprev.1)) +
            dlast.2 * ((y - dprev.1) / (dlast.1 - dprev.1))) := by
  have hpl : dprev.1 < dlast.1 :=
    sorted_fst_lt values hstrict (by omega) hprev hlast
  have hsorted : values.Pairwise (fun p q => p.1 ≤ q.1) :=
    hstrict.imp (fun h => le_of_lt h)
  have hne : values ≠ [] := by
    intro h
    rw [h] at h2
    simp at h2
  obtain ⟨i, hbis, hilen, hltp, hgep⟩ := bisectLeft_run values y hne hsorted
  have hieq : i = values.length - 1 := by
    by_contra hneq
    have hi2 : i < values.length - 1 := by omega
    obtain ⟨a, ha⟩ : ∃ a, values.get? i = some a := ⟨_, List.get?_eq_get hilen⟩
    have h1 : y ≤ a.1 := hgep i a (le_refl i) hi2 ha
    have h2' : a.1 ≤ dlast.1 := by
      rcases eq_or_lt_of_le (show i ≤ values.length - 1 by omega) with he | hl
      · rw [he] at ha
        rw [ha] at hlast
        rw [Option.some_inj.1 hlast]
      · exact le_of_lt (sorted_fst_lt values hstrict hl ha hlast)
    linarith
  subst hieq
  have hprev' : values.get? (values.length - 1 - 1) = some dprev := by
    have h : values.length - 1 - 1 = values.length - 2 := by omega
    rw [h]
    exact hprev
  exact interp_formula values y (values.length - 1) dlast dprev hbis (by omega)
    hlast hprev' (ne_of_lt hpl)

/-- C1: interior interpolation.  For a series with at least two strictly
year-ascending samples, whenever the leftmost bisection index `i` is
positive, `interpolateValues` — which computes the code's expression
`a[1] * (1 - t) + b[1] * t` with `t = (year - a[0]) / (b[0] - a[0])`,
`a = values[i]`, `b = values[i - 1]` — equals the spec's formula
`b.value * (1 - t) + a.value * t` with `t = (year - b.year) / (a.year - b.year)`. -/
theorem interp_interior_spec_formula (values : List Sample) (year : ℚ) (i : ℕ) (a b : Sample)
    (hstrict : values.Pairwise (fun p q : Sample => p.1 < q.1))
    (h2 : 2 ≤ values.length)
    (hbis : bisectLeft values year 0 (values.length - 1) = some i)
    (hi : 0 < i)
    (ha : values.get? i = some a) (hb : values.get? (i - 1) = some b) :
    interpolateValues values year =
      some (b.2 * (1 - (year - b.1) / (a.1 - b.1)) + a.2 * ((year - b.1) / (a.1 - b.1))) := by
  have hba : b.1 < a.1 := sorted_fst_lt values hstrict (by omega) hb ha
  exact interp_formula values year i a b hbis hi ha hb (ne_of_lt hba)

theorem interp_interior_witness :
    interpolateValues [((1800 : ℚ), (10 : ℚ)), (1900, 20), (2000, 40)] 1950 =
      some (20 * (1 - ((1950 : ℚ) - 1900) / (2000 - 1900)) +
            40 * (((1950 : ℚ) - 1900) / (2000 - 1900))) := by
  have h := interp_interior_spec_formula
    [((1800 : ℚ), (10 : ℚ)), (1900, 20), (2000, 40)] 1950 2 (2000, 40) (1900, 20)
    (by norm_num [List.pairwise_cons]) (by norm_num)
    (by norm_num [bisectLeft_of_lt, bisectLeft_of_ge, List.get?])
    (by norm_num) (by norm_num [List.get?]) (by norm_num [List.get?])
  exact h

/-- C2: clamping before the first sample.  On a non-empty year-sorted
series, a query year at or before the first sample's year returns the first
sample's value unchanged — no extrapolation before the first sample. -/
theorem interp_clamp_first (values : List Sample) (year : ℚ) (d0 : Sample)
    (hsorted : values.Pairwise (fun p q : Sample => p.1 ≤ q.1))
    (h0 : values.get? 0 = some d0)
    (hy : year ≤ d0.1) :
    interpolateValues values year = some d0.2 := by
  have hne : values ≠ [] := by
    intro h
    rw [h] at h0
    simp at h0
  obtain ⟨i, hbis, hilen, hltp, hgep⟩ := bisectLeft_run values year hne hsorted
  have hi0 : i = 0 := by
    by_contra hpos
    have := hltp 0 d0 (by omega) h0
    linarith
  subst hi0
  simp only [interpolateValues, hbis, h0]
  simp

theorem interp_clamp_first_witness :
    interpolateValues [((1800 : ℚ), (10 : ℚ)), (1900, 20), (2000, 40)] 1700 = some 10 := by
  have h := interp_clamp_first
    [((1800 : ℚ), (10 : ℚ)), (1900, 20), (2000, 40)] 1700 (1800, 10)
    (by norm_num [List.pairwise_cons]) (by norm_num [List.get?]) (by norm_num)
  exact h

/-- C3 counterexample: on the duplicate-year series `[[2000, 1], [2000, 2]]`
at query year `2005`, the bracketing samples share a year, the division
with zero denominator is reached, and no defined policy value is returned:
the result is `none` (JS `NaN`), refuting the claimed explicit guard. -/
theorem interp_duplicate_year_counterexample :
    interpolateValues [((2000 : ℚ), (1 : ℚ)), (2000, 2)] 2005 = none := by
  norm_num [interpolateValues, bisectLeft_of_lt, bisectLeft_of_ge, List.get?]

/-- C3 (amended): when the two samples bracketing the query year have equal
years, `interpolateValues` executes the division with zero denominator
unguarded; the result is not a defined policy value but JS `NaN`, embedded
as `none`. -/
theorem interp_duplicate_year_unguarded (values : List Sample) (year : ℚ) (i : ℕ)
    (a b : Sample)
    (hbis : bisectLeft values year 0 (values.length - 1) = some i)
    (hi : 0 < i)
    (ha : values.get? i = some a) (hb : values.get? (i - 1) = some b)
    (heq : b.1 = a.1) :
    interpolateValues values year = none := by
  simp only [interpolateValues, hbis, ha, hb]
  rw [if_pos hi, if_pos (by rw [heq]; exact sub_self a.1)]

theorem interp_duplicate_year_unguarded_witness :
    interpolateValues [((2000 : ℚ), (3 : ℚ)), (2000, 7)] 2005 = none := by
  have h := interp_duplicate_year_unguarded
    [((2000 : ℚ), (3 : ℚ)), (2000, 7)] 2005 1 (2000, 7) (2000, 3)
    (by norm_num [bisectLeft_of_lt, bisectLeft_of_ge, List.get?])
    (by norm_num) (by norm_num [List.get?]) (by norm_num [List.get?]) (by norm_num)
  exact h

/-- C4: exact sample hit.  On a series with strictly ascending years,
querying at the year of the `k`-th sample returns exactly that sample's
value — the interpolation fraction resolves exactly, with no drift. -/
theorem interp_exact_hit (values : List Sample) (k : ℕ) (dk : Sample)
    (hstrict : values.Pairwise (fun p q : Sample => p.1 < q.1))
    (hk : values.get? k = some dk) :
    interpolateValues values dk.1 = some dk.2 :=
  interp_exact values k dk hstrict hk

theorem interp_exact_hit_witness :
    interpolateValues [((1800 : ℚ), (10 : ℚ)), (1900, 20), (2000, 40)] 1900 = some 20 := by
  have h := interp_exact_hit
    [((1800 : ℚ), (10 : ℚ)), (1900, 20), (2000, 40)] 1 (1900, 20)
    (by norm_num [List.pairwise_cons]) (by norm_num [List.get?])
  exact h

/-- C5: monotonicity between samples.  On a series with strictly ascending
years and strictly increasing values, for query years `y1 ≤ y2` both lying
between the same two consecutive samples, the interpolated value at `y1` is
at most the one at `y2`. -/
theorem interp_monotone_segment (values : List Sample) (k : ℕ) (dk dk1 : Sample)
    (y1 y2 : ℚ)
    (hstrict : values.Pairwise (fun p q : Sample => p.1 < q.1))
    (hvals : values.Pairwise (fun p q : Sample => p.2 < q.2))
    (hdk : values.get? k = some dk) (hdk1 : values.get? (k + 1) = some dk1)
    (h12 : y1 ≤ y2) (hy1 : dk.1 ≤ y1) (hy2 : y2 ≤ dk1.1) :
    ∃ v1 v2, interpolateValues values y1 = some v1 ∧
      interpolateValues values y2 = some v2 ∧ v1 ≤ v2 := by
  have hv : dk.2 < dk1.2 := pairwise_get_rel values hvals (by omega) hdk hdk1
  have hkk1 : dk.1 < dk1.1 := sorted_fst_lt values hstrict (by omega) hdk hdk1
  have h1 := interp_segment values k dk dk1 y1 hstrict hdk hdk1 hy1 (le_trans h12 hy2)
  have h2 := interp_segment values k dk dk1 y2 hstrict hdk hdk1 (le_trans hy1 h12) hy2
  refine ⟨_, _, h1, h2, ?_⟩
  have hc : (0 : ℚ) ≤ dk1.2 - dk.2 := by linarith
  have he : (0 : ℚ) < dk1.1 - dk.1 := by linarith
  gcongr

theorem interp_monotone_segment_witness :
    ∃ v1 v2,
      interpolateValues [((1800 : ℚ), (10 : ℚ)), (1900, 20), (2000, 40)] 1920 = some v1 ∧
      interpolateValues [((1800 : ℚ), (10 : ℚ)), (1900, 20), (2000, 40)] 1980 = some v2 ∧
      v1 ≤ v2 := by
  exact interp_monotone_segment
    [((1800 : ℚ), (10 : ℚ)), (1900, 20), (2000, 40)] 1 (1900, 20) (2000, 40) 1920 1980
    (by norm_num [List.pairwise_cons]) (by norm_num [List.pairwise_cons])
    (by norm_num [List.get?]) (by norm_num [List.get?])
    (by norm_num) (by norm_num) (by norm_num)

/-- C6: extrapolation past the last sample.  Because the bisection's upper
bound is `values.length - 1`, a query year strictly past the last sample's
year selects the last sample, and the result is the linear extrapolation
through the last two samples; when the series is increasing there, the
result lies strictly beyond the last sample's value instead of clamping. -/
theorem interp_extrapolate_past_last (values : List Sample) (y : ℚ) (dprev dlast : Sample)
    (hstrict : values.Pairwise (fun p q : Sample => p.1 < q.1))
    (h2 : 2 ≤ values.length)
    (hprev : values.get? (values.length - 2) = some dprev)
    (hlast : values.get? (values.length - 1) = some dlast)
    (hy : dlast.1 < y) :
    interpolateValues values y =
      some (dprev.2 * (1 - (y - dprev.1) / (dlast.1 - dprev.1)) +
            dlast.2 * ((y - dprev.1) / (dlast.1 - dprev.1))) ∧
    (dprev.2 < dlast.2 →
      dlast.2 < dprev.2 * (1 - (y - dprev.1) / (dlast.1 - dprev.1)) +
                dlast.2 * ((y - dprev.1) / (dlast.1 - dprev.1))) := by
  refine ⟨interp_extrapolate_right values y dprev dlast hstrict h2 hprev hlast hy, ?_⟩
  intro hv
  have hpl : dprev.1 < dlast.1 :=
    sorted_fst_lt values hstrict (by omega) hprev hlast
  have ht : 1 < (y - dprev.1) / (dlast.1 - dprev.1) :=
    (one_lt_div (by linarith)).2 (by linarith)
  nlinarith [mul_pos (sub_pos.2 ht) (sub_pos.2 hv)]

theorem interp_extrapolate_past_last_witness :
    interpolateValues [((1800 : ℚ), (10 : ℚ)), (1900, 20)] 1950 =
      some (10 * (1 - ((1950 : ℚ) - 1800) / (1900 - 1800)) +
            20 * (((1950 : ℚ) - 1800) / (1900 - 1800))) ∧
    ((10 : ℚ) < 20 →
      (20 : ℚ) < 10 * (1 - ((1950 : ℚ) - 1800) / (1900 - 1800)) +
                 20 * (((1950 : ℚ) - 1800) / (1900 - 1800))) := by
  exact interp_extrapolate_past_last
    [((1800 : ℚ), (10 : ℚ)), (1900, 20)] 1950 (1800, 10) (1900, 20)
    (by norm_num [List.pairwise_cons]) (by norm_num)
    (by norm_num [List.get?]) (by norm_num [List.get?]) (by norm_num)

/-- C7: frame composition shape and order.  `interpolateData` returns one
snapshot per input entity in input order; the snapshot at position `k`
carries the `k`-th entity's name and region unchanged and its three numeric
fields are the interpolator applied to the corresponding series at the
query year. -/
theorem compose_frame_snapshots (nations : List Entity) (year : ℚ) (k : ℕ) (e : Entity)
    (hne : ∀ e' ∈ nations, e'.income ≠ [] ∧ e'.population ≠ [] ∧ e'.lifeExpectancy ≠ [])
    (hk : nations.get? k = some e) :
    (interpolateData nations year).length = nations.length ∧
    (interpolateData nations year).get? k =
      some { name := e.name
             region := e.region
             income := interpolateValues e.income year
             population := interpolateValues e.population year
             lifeExpectancy := interpolateValues e.lifeExpectancy year } := by
  constructor
  · simp [interpolateData]
  · have hk' : nations[k]? = some e := by
      rw [← List.get?_eq_getElem?]
      exact hk
    simp only [interpolateData, List.get?_eq_getElem?, List.getElem?_map, hk',
      Option.map_some']

theorem compose_frame_snapshots_witness :
    (interpolateData [⟨"Angola", "Sub-Saharan Africa",
        [((1800 : ℚ), (359 : ℚ))], [((1800 : ℚ), (1567028 : ℚ))], [((1800 : ℚ), (27 : ℚ))]⟩]
      1850).length = 1 ∧
    (interpolateData [⟨"Angola", "Sub-Saharan Africa",
        [((1800 : ℚ), (359 : ℚ))], [((1800 : ℚ), (1567028 : ℚ))], [((1800 : ℚ), (27 : ℚ))]⟩]
      1850).get? 0 =
      some { name := "Angola"
             region := "Sub-Saharan Africa"
             income := interpolateValues [((1800 : ℚ), (359 : ℚ))] 1850
             population := interpolateValues [((1800 : ℚ), (1567028 : ℚ))] 1850
             lifeExpectancy := interpolateValues [((1800 : ℚ), (27 : ℚ))] 1850 } := by
  exact compose_frame_snapshots
    [⟨"Angola", "Sub-Saharan Africa",
        [((1800 : ℚ), (359 : ℚ))], [((1800 : ℚ), (1567028 : ℚ))], [((1800 : ℚ), (27 : ℚ))]⟩]
    1850 0
    ⟨"Angola", "Sub-Saharan Africa",
        [((1800 : ℚ), (359 : ℚ))], [((1800 : ℚ), (1567028 : ℚ))], [((1800 : ℚ), (27 : ℚ))]⟩
    (by simp) rfl

/-- C8: draw-order sortedness.  After sorting any list of snapshots with the
draw-order comparator (`order(a, b) = radius(b) - radius(a)`, with `radius`
reading the population), every adjacent pair `(a, b)` with numeric
populations satisfies `population a ≥ population b`: larger marks are drawn
before (underneath) smaller ones. -/
theorem draw_order_sorted (l : List Snapshot) :
    List.Chain'
      (fun a b => ∀ ra rb, a.population = some ra → b.population = some rb → rb ≤ ra)
      (sortSnapshots l) := by
  have hp : (List.mergeSort l orderLe).Pairwise (fun a b => orderLe a b = true) := by
    apply List.sorted_mergeSort
    · intro a b c hab hbc
      simp only [orderLe, decide_eq_true_eq] at *
      exact le_trans hbc hab
    · intro a b
      simp only [orderLe]
      rcases le_total ((radius b).getD 0) ((radius a).getD 0) with h | h
      · simp [h]
      · simp [h]
  have hp' : (List.mergeSort l orderLe).Pairwise
      (fun a b => ∀ ra rb, a.population = some ra → b.population = some rb → rb ≤ ra) := by
    refine hp.imp ?_
    intro a b hab ra rb hra hrb
    simp only [orderLe, decide_eq_true_eq, radius, hra, hrb, Option.getD_some] at hab
    exact hab
  exact hp'.chain'

/-- C9: worked example.  On the series `[[1800, 10], [1900, 20], [2000, 40]]`
at query year `1950`, the interpolator returns exactly `30` (midpoint
between the 1900 and 2000 samples), computed with exact arithmetic. -/
theorem interp_worked_example :
    interpolateValues [((1800 : ℚ), (10 : ℚ)), (1900, 20), (2000, 40)] 1950 = some 30 := by
  norm_num [interpolateValues, bisectLeft_of_lt, bisectLeft_of_ge, List.get?]

/-- C10: index safety.  On any non-empty series (no sortedness assumed) and
any query year, the bisection index lands in `[0, values.length - 1]`, so
`values[i]` is defined, `values[i - 1]` is defined whenever the guard
`i > 0` holds, and the only way the embedded `interpolateValues` yields no
value is the division with zero denominator — the out-of-bounds branches
are unreachable. -/
theorem interp_index_safety (values : List Sample) (year : ℚ) (hne : values ≠ []) :
    ∃ i a, bisectLeft values year 0 (values.length - 1) = some i ∧
      i ≤ values.length - 1 ∧ values.get? i = some a ∧
      (0 < i → ∃ b, values.get? (i - 1) = some b) ∧
      (interpolateValues values year = none →
        ∃ b, 0 < i ∧ values.get? (i - 1) = some b ∧ b.1 - a.1 = 0) := by
  have hlen : 0 < values.length := List.length_pos.2 hne
  obtain ⟨i, hbis, _, hile⟩ := bisectLeft_bounds values year values.length 0
    (values.length - 1) (by omega) (by omega) (by omega)
  have hilen : i < values.length := by omega
  obtain ⟨a, ha⟩ : ∃ a, values.get? i = some a := ⟨_, List.get?_eq_get hilen⟩
  refine ⟨i, a, hbis, hile, ha, ?_, ?_⟩
  · intro hpos
    exact ⟨_, List.get?_eq_get (show i - 1 < values.length by omega)⟩
  · intro hnone
    rcases Nat.eq_zero_or_pos i with h0 | hpos
    · subst h0
      simp only [interpolateValues, hbis, ha] at hnone
      simp at hnone
    · obtain ⟨b, hb⟩ : ∃ b, values.get? (i - 1) = some b :=
        ⟨_, List.get?_eq_get (show i - 1 < values.length by omega)⟩
      refine ⟨b, hpos, hb, ?_⟩
      by_contra hz
      simp only [interpolateValues, hbis, ha, hb] at hnone
      rw [if_pos hpos, if_neg hz] at hnone
      simp at hnone

theorem interp_index_safety_witness :
    ∃ i a, bisectLeft [((1800 : ℚ), (10 : ℚ))] 1234 0
        (([((1800 : ℚ), (10 : ℚ))] : List Sample).length - 1) = some i ∧
      i ≤ ([((1800 : ℚ), (10 : ℚ))] : List Sample).length - 1 ∧
      ([((1800 : ℚ), (10 : ℚ))] : List Sample).get? i = some a ∧
      (0 < i → ∃ b, ([((1800 : ℚ), (10 : ℚ))] : List Sample).get? (i - 1) = some b) ∧
      (interpolateValues [((1800 : ℚ), (10 : ℚ))] 1234 = none →
        ∃ b, 0 < i ∧ ([((1800 : ℚ), (10 : ℚ))] : List Sample).get? (i - 1) = some b ∧
          b.1 - a.1 = 0) :=
  interp_index_safety [((1800 : ℚ), (10 : ℚ))] 1234 (by simp)
